import Mathlib

/-!
Shallow embedding of the weekly-schedule manager (src/remixed-622e566d.rs).

Conventions used throughout this development:

* Rust `f32` durations are embedded as rationals (ℚ).  The cast
  `(x * 60.0) as i32` truncates toward zero and is embedded as `truncQ`.
  Every concrete duration appearing in a theorem below is exactly
  representable as an `f32` and its product with `60.0` is exact, so the
  rational embedding agrees with the `f32` computation at each such input.
* Methods taking `&mut self` are embedded as functions returning the new
  state together with the result value, so that the state left behind by
  an error return is visible in the embedding.
* The two `.unwrap()` calls inside `check_time_conflict` abort the
  process when the stored start time does not parse; an abort is embedded
  as the outer `none` of an `Option` result, which propagates to
  `add_activity` and `edit_activity`.
* `Uuid::new_v4()` and `Local::now()` are nondeterministic inputs of
  `add_activity` and are embedded as explicit parameters (`newId`, `now`).
  The `created_at` timestamp plays no role in any claim and is embedded
  as a natural number.
* File persistence is external I/O: `save_data` never changes the
  in-memory state (its failure only prints a warning), so it is omitted;
  the state update performed by `load_data` is embedded with the decoded
  payload passed as a parameter.
* `HashMap<String, Category>` is embedded as an association list keyed by
  the category key; the claims only depend on key membership.
* `NaiveTime::parse_from_str(s, "%H:%M")` is embedded as `parseHM`,
  following the chrono parser: each numeric field skips leading
  whitespace and consumes one or two digits, the literal `:` is matched
  exactly, the whole input must be consumed, and the resulting hour and
  minute must lie below 24 and 60 respectively.
-/

/-- Embeds `struct Category` (display name and color). -/
structure Category where
  name : String
  color : String
deriving DecidableEq

/-- Embeds `struct Activity`.  `duration` is in hours; `created_at` is an
uninterpreted timestamp. -/
structure Activity where
  id : String
  title : String
  category : String
  duration : ℚ
  start_time : String
  location : Option String
  description : Option String
  day : String
  created_at : Nat
deriving DecidableEq

/-- Embeds `struct WeeklyStats`. The two `HashMap<String, f32>` fields are
embedded as association lists in first-insertion order. -/
structure WeeklyStats where
  total_time : ℚ
  by_category : List (String × ℚ)
  by_day : List (String × ℚ)
  activity_count : Nat
deriving DecidableEq

/-- Embeds the in-memory state of `struct WeeklyOrganizer` (the
`data_file` path only feeds the external persistence collaborator and is
omitted). -/
structure WeeklyOrganizer where
  activities : List Activity
  categories : List (String × Category)
deriving DecidableEq

/-- The error kinds carried by the `Err(String)` returns of the engine,
one constructor per distinct message produced by the source. -/
inductive SchedError where
  | invalidTime (t : String)
  | invalidDay (d : String)
  | unknownCategory (c : String)
  | invalidDuration
  | emptyTitle
  | timeConflict (title : String)
  | notFound
deriving DecidableEq

deriving instance DecidableEq for Except

/-- Embeds `title.trim().is_empty()`: the trimmed string is empty exactly
when every character of the original is whitespace. -/
def trimIsEmpty (s : String) : Bool := s.data.all Char.isWhitespace

/-- Numeric value of a decimal digit character. -/
def digVal (c : Char) : Nat := c.toNat - '0'.toNat

/-- Embeds chrono `scan::number(s, 1, 2)`: consume one or two leading
decimal digits, returning the value and the rest of the input. -/
def scanNum2 : List Char → Option (Nat × List Char)
  | [] => none
  | [c1] => if c1.isDigit then some (digVal c1, []) else none
  | c1 :: c2 :: rest =>
    if c1.isDigit then
      if c2.isDigit then some (digVal c1 * 10 + digVal c2, rest)
      else some (digVal c1, c2 :: rest)
    else none

/-- Embeds `NaiveTime::parse_from_str(s, "%H:%M")` followed by the
hour/minute range checks of `NaiveTime`: chrono trims whitespace before
each numeric field, parses 1-2 digits for `%H`, matches the literal `:`
exactly, parses 1-2 digits for `%M`, and requires the whole input to be
consumed; the resulting time must satisfy hour < 24 and minute < 60. -/
def parseHM (s : String) : Option (Nat × Nat) :=
  let cs1 := s.data.dropWhile Char.isWhitespace
  match scanNum2 cs1 with
  | none => none
  | some (h, cs2) =>
    match cs2 with
    | ':' :: cs3 =>
      let cs4 := cs3.dropWhile Char.isWhitespace
      match scanNum2 cs4 with
      | none => none
      | some (m, cs5) =>
        if cs5 = [] ∧ h < 24 ∧ m < 60 then some (h, m) else none
    | _ => none

/-- Embeds `WeeklyOrganizer::validate_time`. -/
def validate_time (time : String) : Except SchedError Unit :=
  if (parseHM time).isSome then Except.ok () else Except.error (SchedError.invalidTime time)

/-- The seven canonical day labels, in source order. -/
def valid_days : List String :=
  ["Segunda", "Terça", "Quarta", "Quinta", "Sexta", "Sábado", "Domingo"]

/-- Embeds `WeeklyOrganizer::validate_day`. -/
def validate_day (day : String) : Except SchedError Unit :=
  if valid_days.contains day then Except.ok () else Except.error (SchedError.invalidDay day)

/-- Embeds the Rust cast `q as i32` on a finite float value: truncation
toward zero. -/
def truncQ (q : ℚ) : ℤ := if 0 ≤ q then ⌊q⌋ else ⌈q⌉

/-- Minutes since midnight of a parsed (hour, minute) pair, as in
`start.hour() as i32 * 60 + start.minute() as i32`. -/
def minutesOf (p : Nat × Nat) : ℤ := p.1 * 60 + p.2

/-- The loop body of `check_time_conflict`: scan the activities in store
order; for each one on the requested day, parse its start time with
`.unwrap()` (outer `none` embeds the abort on parse failure), compute its
occupied interval end as start plus `(duration * 60.0) as i32`, and
return the first activity whose interval strictly overlaps the candidate
interval `[sC, eC)`. -/
def conflictScan (day : String) (sC eC : ℤ) : List Activity → Option (Option Activity)
  | [] => some none
  | a :: rest =>
    if a.day = day then
      match parseHM a.start_time with
      | none => none
      | some p =>
        if sC < minutesOf p + truncQ (a.duration * 60) ∧ eC > minutesOf p then
          some (some a)
        else conflictScan day sC eC rest
    else conflictScan day sC eC rest

/-- Embeds `WeeklyOrganizer::check_time_conflict` over a given activity
list (the source scans `self.activities`; `edit_activity` additionally
calls it on a temporary organizer holding a filtered list).  The
candidate start time is parsed with `.unwrap()` as well. -/
def check_time_conflict (acts : List Activity) (day start_time : String) (duration : ℚ) :
    Option (Option Activity) :=
  match parseHM start_time with
  | none => none
  | some p => conflictScan day (minutesOf p) (minutesOf p + truncQ (duration * 60)) acts

/-- Key membership in the association-list embedding of the HashMap. -/
def containsKey (m : List (String × Category)) (k : String) : Bool :=
  m.any (fun p => p.1 == k)

/-- The seven default categories installed by `init_default_categories`. -/
def defaultCategories : List (String × Category) :=
  [ ("trabalho", { name := "Trabalho", color := "#3B82F6" }),
    ("pessoal", { name := "Pessoal", color := "#10B981" }),
    ("saude", { name := "Saúde", color := "#F59E0B" }),
    ("estudo", { name := "Estudo", color := "#8B5CF6" }),
    ("lazer", { name := "Lazer", color := "#EF4444" }),
    ("reuniao", { name := "Reunião", color := "#F97316" }),
    ("exercicio", { name := "Exercício", color := "#06B6D4" }) ]

/-- Embeds `WeeklyOrganizer::new` when loading finds no data file: empty
activity store plus the default categories. -/
def WeeklyOrganizer.new : WeeklyOrganizer :=
  { activities := [], categories := defaultCategories }

/-- Embeds `WeeklyOrganizer::add_activity`.  `newId` embeds
`Uuid::new_v4().to_string()` and `now` embeds `Local::now()`.  The outer
`none` embeds an abort inside `check_time_conflict`; otherwise the pair
holds the state after the call and the returned `Result`. -/
def add_activity (o : WeeklyOrganizer) (newId : String) (now : Nat)
    (title category day start_time : String) (duration : ℚ)
    (location description : Option String) :
    Option (WeeklyOrganizer × Except SchedError String) :=
  match validate_day day with
  | Except.error e => some (o, Except.error e)
  | Except.ok () =>
  match validate_time start_time with
  | Except.error e => some (o, Except.error e)
  | Except.ok () =>
  if ¬ containsKey o.categories category then
    some (o, Except.error (SchedError.unknownCategory category))
  else if duration ≤ 0 ∨ 8 < duration then
    some (o, Except.error SchedError.invalidDuration)
  else if trimIsEmpty title then
    some (o, Except.error SchedError.emptyTitle)
  else
    match check_time_conflict o.activities day start_time duration with
    | none => none
    | some (some conflicting) =>
      some (o, Except.error (SchedError.timeConflict conflicting.title))
    | some none =>
      let activity : Activity :=
        { id := newId, title := title, category := category, duration := duration,
          start_time := start_time, location := location, description := description,
          day := day, created_at := now }
      some ({ o with activities := o.activities ++ [activity] }, Except.ok newId)

/-- The merged record `temp_activity` built by `edit_activity`: each of
the five validated fields takes the supplied value when present and the
current value otherwise. -/
def mergeFields (a : Activity) (title category day start_time : Option String)
    (duration : Option ℚ) : Activity :=
  { a with
    title := title.getD a.title,
    category := category.getD a.category,
    day := day.getD a.day,
    start_time := start_time.getD a.start_time,
    duration := duration.getD a.duration }

/-- The final field assignments of `edit_activity`: the five merged
fields plus location and description, which are overwritten only when a
new value is supplied. -/
def applyChanges (a : Activity) (title category day start_time : Option String)
    (duration : Option ℚ) (location description : Option String) : Activity :=
  { mergeFields a title category day start_time duration with
    location := match location with | some l => some l | none => a.location,
    description := match description with | some d => some d | none => a.description }

/-- Mutation through `iter_mut().find(...)`: rewrite the first element
satisfying the predicate, leaving everything else in place. -/
def updateFirst (p : Activity → Bool) (f : Activity → Activity) :
    List Activity → List Activity
  | [] => []
  | a :: rest => if p a then f a :: rest else a :: updateFirst p f rest

/-- Embeds `WeeklyOrganizer::edit_activity`.  Validation (day, time,
category) runs on the merged copy; the conflict check runs on the store
with every activity of the edited id filtered out; only then are the
changes applied to the stored activity. -/
def edit_activity (o : WeeklyOrganizer) (id : String)
    (title category day start_time : Option String) (duration : Option ℚ)
    (location description : Option String) :
    Option (WeeklyOrganizer × Except SchedError Unit) :=
  match o.activities.find? (fun a => a.id == id) with
  | none => some (o, Except.error SchedError.notFound)
  | some activity =>
    let temp := mergeFields activity title category day start_time duration
    match validate_day temp.day with
    | Except.error e => some (o, Except.error e)
    | Except.ok () =>
    match validate_time temp.start_time with
    | Except.error e => some (o, Except.error e)
    | Except.ok () =>
    if ¬ containsKey o.categories temp.category then
      some (o, Except.error (SchedError.unknownCategory temp.category))
    else
      let others := o.activities.filter (fun a => ¬ a.id == activity.id)
      match check_time_conflict others temp.day temp.start_time temp.duration with
      | none => none
      | some (some conflicting) =>
        some (o, Except.error (SchedError.timeConflict conflicting.title))
      | some none =>
        let newActs :=
          updateFirst (fun a => a.id == id)
            (fun a => applyChanges a title category day start_time duration
                        location description)
            o.activities
        some ({ o with activities := newActs }, Except.ok ())

/-- Embeds `WeeklyOrganizer::remove_activity`: `retain` filters the store
in place, then the length comparison decides between `Ok` and the
not-found error. -/
def remove_activity (o : WeeklyOrganizer) (id : String) :
    WeeklyOrganizer × Except SchedError Unit :=
  let remaining := o.activities.filter (fun a => ¬ a.id == id)
  if remaining.length = o.activities.length then
    ({ o with activities := remaining }, Except.error SchedError.notFound)
  else
    ({ o with activities := remaining }, Except.ok ())

/-- Embeds `*map.entry(k).or_insert(0.0) += v` on the association-list
map: add to the existing binding or append a fresh one. -/
def upsertAdd (k : String) (v : ℚ) : List (String × ℚ) → List (String × ℚ)
  | [] => [(k, v)]
  | (k1, v1) :: rest =>
    if k1 = k then (k1, v1 + v) :: rest else (k1, v1) :: upsertAdd k v rest

/-- Embeds `WeeklyOrganizer::calculate_weekly_stats`: one pass over the
store accumulating total, per-category and per-day durations; the count
is the store length. -/
def calculate_weekly_stats (o : WeeklyOrganizer) : WeeklyStats :=
  o.activities.foldl
    (fun stats a =>
      { total_time := stats.total_time + a.duration,
        by_category := upsertAdd a.category a.duration stats.by_category,
        by_day := upsertAdd a.day a.duration stats.by_day,
        activity_count := stats.activity_count })
    { total_time := 0, by_category := [], by_day := [],
      activity_count := o.activities.length }

/-- Sum of the values of an association-list map. -/
def sumValues (m : List (String × ℚ)) : ℚ := (m.map Prod.snd).sum

/-- Embeds `HashMap::insert` semantics on the association list: replace an
existing binding or append. -/
def insertAssoc (m : List (String × Category)) (k : String) (v : Category) :
    List (String × Category) :=
  if m.any (fun p => p.1 == k) then
    m.map (fun p => if p.1 == k then (k, v) else p)
  else m ++ [(k, v)]

/-- Embeds `HashMap::extend` semantics: insert every pair of the payload. -/
def extendAssoc (m n : List (String × Category)) : List (String × Category) :=
  n.foldl (fun acc p => insertAssoc acc p.1 p.2) m

/-- Embeds the state update of `WeeklyOrganizer::load_data` after a
successful file read and JSON decode (both external I/O, so the decoded
payload is a parameter): the activities are installed wholesale, with no
validation of any field, and the categories extend the current map. -/
def load_data (o : WeeklyOrganizer) (acts : List Activity)
    (cats : List (String × Category)) : WeeklyOrganizer :=
  { o with activities := acts, categories := extendAssoc o.categories cats }

/-- Holds exactly when the occupied intervals of two stored activities, computed
exactly as `check_time_conflict` computes them (end = start plus the
truncation of duration times 60), strictly overlap on a common day. -/
def overlaps (a b : Activity) : Bool :=
  decide (a.day = b.day) &&
    (match parseHM a.start_time, parseHM b.start_time with
     | some pa, some pb =>
       decide (minutesOf pa < minutesOf pb + truncQ (b.duration * 60)) &&
         decide (minutesOf pb < minutesOf pa + truncQ (a.duration * 60))
     | _, _ => false)

/-- Modelled from the spec: the half-up rounding of section 4.1,
`round(durationHours * 60)`, which the source does not perform. -/
def specRoundHalfUp (q : ℚ) : ℤ := ⌊q + 1 / 2⌋

/-- Modelled from the spec: `endMinutes = startMinutes +
round(durationHours * 60)` of section 4.1. -/
def specEndMinutes (startM : ℤ) (durationHours : ℚ) : ℤ :=
  startM + specRoundHalfUp (durationHours * 60)

/-- Modelled from the spec: strict overlap of the occupied intervals of
section 3, with the rounded interval ends of section 4.1. -/
def specOverlaps (a b : Activity) : Bool :=
  decide (a.day = b.day) &&
    (match parseHM a.start_time, parseHM b.start_time with
     | some pa, some pb =>
       decide (minutesOf pa < specEndMinutes (minutesOf pb) b.duration) &&
         decide (minutesOf pb < specEndMinutes (minutesOf pa) a.duration)
     | _, _ => false)

/-- Canonical zero-padded rendering of an (hour, minute) pair. -/
def fmtHM (h m : Nat) : String :=
  String.mk [Nat.digitChar (h / 10), Nat.digitChar (h % 10), ':',
             Nat.digitChar (m / 10), Nat.digitChar (m % 10)]

/-- Every stored start time parses; this is what makes the `.unwrap()`
calls of `check_time_conflict` safe. -/
def WFtimes (acts : List Activity) : Prop :=
  ∀ a ∈ acts, (parseHM a.start_time).isSome

/-- No two distinct stored activities overlap (with the interval ends
the code computes). -/
def NoOverlap (acts : List Activity) : Prop :=
  List.Pairwise (fun a b => overlaps a b = false) acts

/-- The store invariant: parseable start times, pairwise non-overlap and
distinct ids. -/
def StoreInv (o : WeeklyOrganizer) : Prop :=
  WFtimes o.activities ∧ NoOverlap o.activities ∧
    (o.activities.map Activity.id).Nodup

/-- One public mutation of the engine.  The `fresh` side condition of
`add` embeds the freshness of `Uuid::new_v4()` (the spec: a fresh unique
id is assigned on every add). -/
inductive Step : WeeklyOrganizer → WeeklyOrganizer → Prop where
  | add (o : WeeklyOrganizer) (newId : String) (now : Nat)
      (title category day start_time : String) (duration : ℚ)
      (location description : Option String) (o' : WeeklyOrganizer) (rid : String)
      (fresh : ∀ a ∈ o.activities, a.id ≠ newId)
      (h : add_activity o newId now title category day start_time duration
             location description = some (o', Except.ok rid)) : Step o o'
  | edit (o : WeeklyOrganizer) (id : String)
      (title category day start_time : Option String) (duration : Option ℚ)
      (location description : Option String) (o' : WeeklyOrganizer)
      (h : edit_activity o id title category day start_time duration
             location description = some (o', Except.ok ())) : Step o o'
  | remove (o : WeeklyOrganizer) (id : String) (o' : WeeklyOrganizer)
      (h : remove_activity o id = (o', Except.ok ())) : Step o o'

/-- States reachable from the empty organizer through successful public
mutations. -/
inductive Reachable : WeeklyOrganizer → Prop where
  | init : Reachable WeeklyOrganizer.new
  | step {o o' : WeeklyOrganizer} : Reachable o → Step o o' → Reachable o'

/-! ### Concrete stores used in the examples below -/

/-- A 37.5-minute activity starting at 09:00 on Monday. -/
def actA : Activity :=
  { id := "a", title := "A", category := "trabalho", duration := 5/8,
    start_time := "09:00", location := none, description := none,
    day := "Segunda", created_at := 0 }

/-- A 30-minute activity starting at 09:37 on Monday. -/
def actB : Activity :=
  { id := "b", title := "B", category := "trabalho", duration := 1/2,
    start_time := "09:37", location := none, description := none,
    day := "Segunda", created_at := 0 }

def orgA : WeeklyOrganizer := { activities := [actA], categories := defaultCategories }

def orgAB : WeeklyOrganizer := { activities := [actA, actB], categories := defaultCategories }

/-- A one-hour activity starting at 09:00 on Monday. -/
def actC : Activity :=
  { id := "c", title := "C", category := "trabalho", duration := 1,
    start_time := "09:00", location := none, description := none,
    day := "Segunda", created_at := 0 }

/-- A one-hour activity starting at 10:00 on Monday, touching the end of
`actC` exactly. -/
def actB10 : Activity :=
  { id := "b", title := "B", category := "trabalho", duration := 1,
    start_time := "10:00", location := none, description := none,
    day := "Segunda", created_at := 0 }

def orgC : WeeklyOrganizer := { activities := [actC], categories := defaultCategories }

def orgCB : WeeklyOrganizer := { activities := [actC, actB10], categories := defaultCategories }

/-- The activity `actC` after an edit that sets a nine-hour duration. -/
def actC9 : Activity :=
  { id := "c", title := "C", category := "trabalho", duration := 9,
    start_time := "09:00", location := none, description := none,
    day := "Segunda", created_at := 0 }

def orgC9 : WeeklyOrganizer := { activities := [actC9], categories := defaultCategories }

/-- The activity `actC` after an edit that sets an empty title. -/
def actCE : Activity :=
  { id := "c", title := "", category := "trabalho", duration := 1,
    start_time := "09:00", location := none, description := none,
    day := "Segunda", created_at := 0 }

def orgCE : WeeklyOrganizer := { activities := [actCE], categories := defaultCategories }

/-- An activity whose stored start time does not parse. -/
def actBad : Activity :=
  { id := "x", title := "X", category := "trabalho", duration := 1,
    start_time := "bad", location := none, description := none,
    day := "Segunda", created_at := 0 }

/-! ### Helper lemmas about the conflict scan -/

theorem conflictScan_isSome (day : String) (sC eC : ℤ) (acts : List Activity)
    (hwf : ∀ a ∈ acts, a.day = day → (parseHM a.start_time).isSome) :
    (conflictScan day sC eC acts).isSome := by
  induction acts with
  | nil => simp [conflictScan]
  | cons a rest ih =>
    have ih2 := ih (fun b hb hbd => hwf b (List.mem_cons_of_mem a hb) hbd)
    by_cases hd : a.day = day
    · have hp : (parseHM a.start_time).isSome := hwf a (List.mem_cons_self a rest) hd
      rcases hps : parseHM a.start_time with _ | p
      · rw [hps] at hp; simp at hp
      · simp only [conflictScan, if_pos hd, hps]
        by_cases hov : sC < minutesOf p + truncQ (a.duration * 60) ∧ eC > minutesOf p
        · rw [if_pos hov]; simp
        · rw [if_neg hov]; exact ih2
    · simpa only [conflictScan, if_neg hd] using ih2

theorem conflictScan_some_none (day : String) (sC eC : ℤ) (acts : List Activity)
    (h : conflictScan day sC eC acts = some none) :
    ∀ a ∈ acts, a.day = day → ∃ p, parseHM a.start_time = some p ∧
      ¬ (sC < minutesOf p + truncQ (a.duration * 60) ∧ eC > minutesOf p) := by
  induction acts with
  | nil => simp
  | cons a rest ih =>
    intro b hb hbd
    by_cases hd : a.day = day
    · rcases hps : parseHM a.start_time with _ | p
      · rw [conflictScan, if_pos hd, hps] at h; simp at h
      · rw [conflictScan, if_pos hd, hps] at h
        dsimp only at h
        by_cases hov : sC < minutesOf p + truncQ (a.duration * 60) ∧ eC > minutesOf p
        · rw [if_pos hov] at h; simp at h
        · rw [if_neg hov] at h
          rcases List.mem_cons.mp hb with rfl | hb2
          · exact ⟨p, hps, hov⟩
          · exact ih h b hb2 hbd
    · rw [conflictScan, if_neg hd] at h
      rcases List.mem_cons.mp hb with rfl | hb2
      · exact absurd hbd hd
      · exact ih h b hb2 hbd

theorem conflictScan_no_hit (day : String) (sC eC : ℤ) (acts : List Activity)
    (h : ∀ a ∈ acts, a.day = day → ∀ p, parseHM a.start_time = some p →
      ¬ (sC < minutesOf p + truncQ (a.duration * 60) ∧ eC > minutesOf p)) :
    ∀ c, conflictScan day sC eC acts ≠ some (some c) := by
  induction acts with
  | nil => simp [conflictScan]
  | cons a rest ih =>
    have ih2 := ih (fun b hb hbd => h b (List.mem_cons_of_mem a hb) hbd)
    intro c
    by_cases hd : a.day = day
    · rcases hps : parseHM a.start_time with _ | p
      · rw [conflictScan, if_pos hd, hps]; simp
      · rw [conflictScan, if_pos hd, hps]
        dsimp only
        by_cases hov : sC < minutesOf p + truncQ (a.duration * 60) ∧ eC > minutesOf p
        · exact absurd hov (h a (List.mem_cons_self a rest) hd p hps)
        · rw [if_neg hov]; exact ih2 c
    · rw [conflictScan, if_neg hd]; exact ih2 c

theorem conflictScan_eq_some_none (day : String) (sC eC : ℤ) (acts : List Activity)
    (hwf : ∀ a ∈ acts, a.day = day → (parseHM a.start_time).isSome)
    (h : ∀ a ∈ acts, a.day = day → ∀ p, parseHM a.start_time = some p →
      ¬ (sC < minutesOf p + truncQ (a.duration * 60) ∧ eC > minutesOf p)) :
    conflictScan day sC eC acts = some none := by
  rcases hs : conflictScan day sC eC acts with _ | c
  · have := conflictScan_isSome day sC eC acts hwf
    rw [hs] at this; simp at this
  · rcases c with _ | c
    · rfl
    · exact absurd hs (conflictScan_no_hit day sC eC acts h c)

/-! ### Helper lemmas about the overlap predicate -/

theorem overlaps_symm (a b : Activity) : overlaps a b = overlaps b a := by
  simp only [overlaps]
  rcases hpa : parseHM a.start_time with _ | pa <;>
    rcases hpb : parseHM b.start_time with _ | pb <;> simp only
  · simp
  · simp
  · simp
  · rw [Bool.and_comm (decide (minutesOf pa < minutesOf pb + truncQ (b.duration * 60)))]
    congr 1
    exact decide_eq_decide.mpr eq_comm

theorem overlaps_false_of_noconflict (n b : Activity) (pn : Nat × Nat)
    (hn : parseHM n.start_time = some pn)
    (h : b.day = n.day → ∀ pb, parseHM b.start_time = some pb →
      ¬ (minutesOf pn < minutesOf pb + truncQ (b.duration * 60) ∧
         minutesOf pn + truncQ (n.duration * 60) > minutesOf pb)) :
    overlaps n b = false := by
  rw [← Bool.not_eq_true]
  intro htrue
  simp only [overlaps, hn, Bool.and_eq_true, decide_eq_true_eq] at htrue
  rcases htrue with ⟨hd, hrest⟩
  rcases hpb : parseHM b.start_time with _ | pb
  · rw [hpb] at hrest; simp at hrest
  · rw [hpb] at hrest
    simp only [Bool.and_eq_true, decide_eq_true_eq] at hrest
    exact h hd.symm pb hpb ⟨hrest.1, hrest.2⟩

theorem noconflict_of_overlaps_false (n b : Activity) (pn : Nat × Nat)
    (hn : parseHM n.start_time = some pn) (hov : overlaps n b = false) :
    b.day = n.day → ∀ pb, parseHM b.start_time = some pb →
      ¬ (minutesOf pn < minutesOf pb + truncQ (b.duration * 60) ∧
         minutesOf pn + truncQ (n.duration * 60) > minutesOf pb) := by
  intro hd pb hpb hc
  have htrue : overlaps n b = true := by
    simp only [overlaps, hn, hpb, Bool.and_eq_true]
    exact ⟨decide_eq_true hd.symm, decide_eq_true hc.1, decide_eq_true hc.2⟩
  rw [hov] at htrue
  cases htrue

/-! ### List decomposition helpers -/

theorem find?_decomp (p : Activity → Bool) (l : List Activity) (a : Activity)
    (h : l.find? p = some a) :
    ∃ l1 l2, l = l1 ++ a :: l2 ∧ (∀ x ∈ l1, p x = false) ∧ p a = true := by
  induction l with
  | nil => simp [List.find?] at h
  | cons b rest ih =>
    rcases hpb : p b with _ | _
    · rw [List.find?, hpb] at h
      rcases ih h with ⟨l1, l2, hsplit, hl1, hpa⟩
      exact ⟨b :: l1, l2, by rw [hsplit]; rfl,
        fun x hx => by rcases List.mem_cons.mp hx with rfl | hx2; exact hpb; exact hl1 x hx2, hpa⟩
    · rw [List.find?, hpb] at h
      injection h with h2
      subst h2
      exact ⟨[], rest, rfl, by simp, hpb⟩

theorem updateFirst_decomp (p : Activity → Bool) (f : Activity → Activity)
    (l1 l2 : List Activity) (a : Activity)
    (h1 : ∀ x ∈ l1, p x = false) (ha : p a = true) :
    updateFirst p f (l1 ++ a :: l2) = l1 ++ f a :: l2 := by
  induction l1 with
  | nil => simp [updateFirst, ha]
  | cons b rest ih =>
    have hb : p b = false := h1 b (List.mem_cons_self b rest)
    rw [List.cons_append]
    show (if p b then f b :: (rest ++ a :: l2) else b :: updateFirst p f (rest ++ a :: l2))
      = b :: (rest ++ f a :: l2)
    rw [if_neg (by simp [hb]), ih (fun x hx => h1 x (List.mem_cons_of_mem b hx))]

theorem filter_decomp (l1 l2 : List Activity) (a : Activity) (q : Activity → Bool)
    (h1 : ∀ x ∈ l1, q x = true) (h2 : ∀ x ∈ l2, q x = true) (ha : q a = false) :
    (l1 ++ a :: l2).filter q = l1 ++ l2 := by
  rw [List.filter_append, List.filter_cons_of_neg (by simp [ha]),
    List.filter_eq_self.mpr (fun x hx => h1 x hx), List.filter_eq_self.mpr (fun x hx => h2 x hx)]

theorem filter_length_eq (l : List Activity) (q : Activity → Bool)
    (h : (l.filter q).length = l.length) : l.filter q = l := by
  induction l with
  | nil => rfl
  | cons b rest ih =>
    rcases hqb : q b with _ | _
    · exfalso
      rw [List.filter_cons_of_neg (by simp [hqb])] at h
      have hle := List.length_filter_le q rest
      simp only [List.length_cons] at h
      omega
    · rw [List.filter_cons_of_pos (by simp [hqb])] at h ⊢
      simp only [List.length_cons, Nat.succ_inj] at h
      rw [ih h]

/-! ### Control-flow extraction for the three mutations -/

theorem add_activity_ok (o : WeeklyOrganizer) (newId : String) (now : Nat)
    (title category day start_time : String) (duration : ℚ)
    (location description : Option String) (o' : WeeklyOrganizer) (rid : String)
    (h : add_activity o newId now title category day start_time duration location description
      = some (o', Except.ok rid)) :
    rid = newId ∧ validate_day day = Except.ok () ∧ (parseHM start_time).isSome ∧
    containsKey o.categories category = true ∧
    check_time_conflict o.activities day start_time duration = some none ∧
    o'.activities = o.activities ++
      [{ id := newId, title := title, category := category, duration := duration,
         start_time := start_time, location := location, description := description,
         day := day, created_at := now }] ∧
    o'.categories = o.categories := by
  unfold add_activity at h
  rcases hvd : validate_day day with e | u
  · rw [hvd] at h; simp at h
  cases u
  rw [hvd] at h
  dsimp only at h
  rcases hvt : validate_time start_time with e | u
  · rw [hvt] at h; simp at h
  cases u
  rw [hvt] at h
  dsimp only at h
  have hvts : (parseHM start_time).isSome := by
    by_contra hns
    rw [validate_time, if_neg hns] at hvt
    cases hvt
  by_cases hck : containsKey o.categories category = true
  · rw [if_neg (not_not_intro hck)] at h
    by_cases hdur : duration ≤ 0 ∨ 8 < duration
    · rw [if_pos hdur] at h; simp at h
    · rw [if_neg hdur] at h
      by_cases hti : trimIsEmpty title = true
      · rw [if_pos hti] at h; simp at h
      · rw [if_neg hti] at h
        rcases hcf : check_time_conflict o.activities day start_time duration with _ | oc
        · rw [hcf] at h; cases h
        · rcases oc with _ | c
          · rw [hcf] at h
            dsimp only at h
            simp only [Option.some.injEq, Prod.mk.injEq, Except.ok.injEq] at h
            obtain ⟨ho, hr⟩ := h
            subst ho
            refine ⟨?_, ?_, hvts, hck, ?_, rfl, rfl⟩
            · simp [hr]
            · rfl
            · rfl
          · rw [hcf] at h; simp at h
  · rw [if_pos hck] at h; simp at h

theorem remove_activity_shape (o : WeeklyOrganizer) (id : String)
    (o' : WeeklyOrganizer) (r : Except SchedError Unit)
    (h : remove_activity o id = (o', r)) :
    o'.activities = o.activities.filter (fun a => ¬ a.id == id) ∧
    o'.categories = o.categories ∧
    (r = Except.error SchedError.notFound →
      (o.activities.filter (fun a => ¬ a.id == id)).length = o.activities.length) ∧
    (r = Except.ok () →
      (o.activities.filter (fun a => ¬ a.id == id)).length ≠ o.activities.length) := by
  unfold remove_activity at h
  by_cases hlen : (o.activities.filter (fun a => ¬ a.id == id)).length = o.activities.length
  · rw [if_pos hlen] at h
    simp only [Prod.mk.injEq] at h
    obtain ⟨ho, hr⟩ := h
    subst ho
    refine ⟨rfl, rfl, fun _ => hlen, fun he => ?_⟩
    rw [he] at hr
    cases hr
  · rw [if_neg hlen] at h
    simp only [Prod.mk.injEq] at h
    obtain ⟨ho, hr⟩ := h
    subst ho
    refine ⟨rfl, rfl, fun he => ?_, fun _ => hlen⟩
    rw [he] at hr
    cases hr

theorem edit_activity_ok (o : WeeklyOrganizer) (id : String)
    (t c d st : Option String) (dur : Option ℚ) (loc desc : Option String)
    (o' : WeeklyOrganizer)
    (h : edit_activity o id t c d st dur loc desc = some (o', Except.ok ())) :
    ∃ a, o.activities.find? (fun x => x.id == id) = some a ∧
      validate_day (mergeFields a t c d st dur).day = Except.ok () ∧
      (parseHM (mergeFields a t c d st dur).start_time).isSome ∧
      containsKey o.categories (mergeFields a t c d st dur).category = true ∧
      check_time_conflict (o.activities.filter (fun x => ¬ x.id == a.id))
        (mergeFields a t c d st dur).day (mergeFields a t c d st dur).start_time
        (mergeFields a t c d st dur).duration = some none ∧
      o'.activities = updateFirst (fun x => x.id == id)
        (fun x => applyChanges x t c d st dur loc desc) o.activities ∧
      o'.categories = o.categories := by
  unfold edit_activity at h
  rcases hfind : o.activities.find? (fun x => x.id == id) with _ | a
  · rw [hfind] at h; simp at h
  refine ⟨a, hfind, ?_⟩
  rw [hfind] at h
  dsimp only at h
  rcases hvd : validate_day (mergeFields a t c d st dur).day with e | u
  · rw [hvd] at h; simp at h
  cases u
  rw [hvd] at h
  dsimp only at h
  rcases hvt : validate_time (mergeFields a t c d st dur).start_time with e | u
  · rw [hvt] at h; simp at h
  cases u
  rw [hvt] at h
  dsimp only at h
  have hvts : (parseHM (mergeFields a t c d st dur).start_time).isSome := by
    by_contra hns
    rw [validate_time, if_neg hns] at hvt
    cases hvt
  by_cases hck : containsKey o.categories (mergeFields a t c d st dur).category = true
  · rw [if_neg (not_not_intro hck)] at h
    rcases hcf : check_time_conflict (o.activities.filter (fun x => ¬ x.id == a.id))
        (mergeFields a t c d st dur).day (mergeFields a t c d st dur).start_time
        (mergeFields a t c d st dur).duration with _ | oc
    · rw [hcf] at h; cases h
    · rcases oc with _ | cfl
      · rw [hcf] at h
        dsimp only at h
        simp only [Option.some.injEq, Prod.mk.injEq] at h
        obtain ⟨ho, hr⟩ := h
        subst ho
        exact ⟨rfl, hvts, hck, rfl, rfl, rfl⟩
      · rw [hcf] at h; simp at h
  · rw [if_pos hck] at h; simp at h

theorem add_activity_error_state (o : WeeklyOrganizer) (newId : String) (now : Nat)
    (title category day start_time : String) (duration : ℚ)
    (location description : Option String) (o' : WeeklyOrganizer) (e : SchedError)
    (h : add_activity o newId now title category day start_time duration location description
      = some (o', Except.error e)) : o' = o := by
  unfold add_activity at h
  repeat' split at h
  all_goals simp_all

theorem edit_activity_error_state (o : WeeklyOrganizer) (id : String)
    (t c d st : Option String) (dur : Option ℚ) (loc desc : Option String)
    (o' : WeeklyOrganizer) (e : SchedError)
    (h : edit_activity o id t c d st dur loc desc = some (o', Except.error e)) : o' = o := by
  unfold edit_activity at h
  rcases hfind : o.activities.find? (fun x => x.id == id) with _ | a
  · rw [hfind] at h
    dsimp only at h
    simp only [Option.some.injEq, Prod.mk.injEq] at h
    exact h.1.symm
  rw [hfind] at h
  dsimp only at h
  rcases hvd : validate_day (mergeFields a t c d st dur).day with e1 | u
  · rw [hvd] at h
    dsimp only at h
    simp only [Option.some.injEq, Prod.mk.injEq] at h
    exact h.1.symm
  cases u
  rw [hvd] at h
  dsimp only at h
  rcases hvt : validate_time (mergeFields a t c d st dur).start_time with e1 | u
  · rw [hvt] at h
    dsimp only at h
    simp only [Option.some.injEq, Prod.mk.injEq] at h
    exact h.1.symm
  cases u
  rw [hvt] at h
  dsimp only at h
  by_cases hck : containsKey o.categories (mergeFields a t c d st dur).category = true
  · rw [if_neg (not_not_intro hck)] at h
    rcases hcf : check_time_conflict (o.activities.filter (fun x => ¬ x.id == a.id))
        (mergeFields a t c d st dur).day (mergeFields a t c d st dur).start_time
        (mergeFields a t c d st dur).duration with _ | oc
    · rw [hcf] at h; cases h
    · rcases oc with _ | cfl
      · rw [hcf] at h
        dsimp only at h
        simp at h
      · rw [hcf] at h
        dsimp only at h
        simp only [Option.some.injEq, Prod.mk.injEq] at h
        exact h.1.symm
  · rw [if_pos hck] at h
    simp only [Option.some.injEq, Prod.mk.injEq] at h
    exact h.1.symm

theorem remove_activity_error_state (o : WeeklyOrganizer) (id : String)
    (o' : WeeklyOrganizer) (e : SchedError)
    (h : remove_activity o id = (o', Except.error e)) : o' = o := by
  unfold remove_activity at h
  dsimp only at h
  by_cases hlen : (o.activities.filter (fun a => ¬ a.id == id)).length = o.activities.length
  · rw [if_pos hlen] at h
    simp only [Prod.mk.injEq] at h
    have hfe := filter_length_eq o.activities (fun a => ¬ a.id == id) hlen
    rw [← h.1, hfe]
  · rw [if_neg hlen] at h
    simp only [Prod.mk.injEq] at h
    exact absurd h.2 (by simp)

/-! ### Nodup-based store decomposition -/

theorem find?_id_decomp (l : List Activity) (idv : String) (a : Activity)
    (hfind : l.find? (fun x => x.id == idv) = some a)
    (hnd : (l.map Activity.id).Nodup) :
    a.id = idv ∧ ∃ l1 l2, l = l1 ++ a :: l2 ∧ (∀ x ∈ l1, x.id ≠ idv) ∧
      (∀ x ∈ l2, x.id ≠ idv) ∧
      l.filter (fun x => ¬ x.id == a.id) = l1 ++ l2 ∧
      (∀ f, updateFirst (fun x => x.id == idv) f l = l1 ++ f a :: l2) := by
  obtain ⟨l1, l2, hsplit, hl1, hpa⟩ := find?_decomp _ l a hfind
  have haid : a.id = idv := by simpa using hpa
  have hl1ne : ∀ x ∈ l1, x.id ≠ idv := by
    intro x hx
    have := hl1 x hx
    simpa using this
  have hl2ne : ∀ x ∈ l2, x.id ≠ idv := by
    intro x hx hxid
    rw [hsplit, List.map_append, List.map_cons] at hnd
    rw [List.nodup_append] at hnd
    have hcons := hnd.2.1
    rw [List.nodup_cons] at hcons
    exact hcons.1 (by rw [← haid] at hxid; exact hxid ▸ List.mem_map_of_mem Activity.id hx)
  refine ⟨haid, l1, l2, hsplit, hl1ne, hl2ne, ?_, ?_⟩
  · rw [hsplit]
    apply filter_decomp
    · intro x hx
      simp [haid, hl1ne x hx]
    · intro x hx
      simp [haid, hl2ne x hx]
    · simp
  · intro f
    rw [hsplit]
    apply updateFirst_decomp
    · intro x hx
      rw [beq_eq_false_iff_ne]
      exact hl1ne x hx
    · exact hpa

theorem find?_of_mem_nodup (l : List Activity) (a : Activity)
    (hmem : a ∈ l) (hnd : (l.map Activity.id).Nodup) :
    l.find? (fun x => x.id == a.id) = some a := by
  induction l with
  | nil => cases hmem
  | cons b rest ih =>
    rw [List.map_cons, List.nodup_cons] at hnd
    rcases List.mem_cons.mp hmem with rfl | hmem2
    · rw [List.find?_cons_of_pos _ (by simp)]
    · have hb : (b.id == a.id) = false := by
        rw [beq_eq_false_iff_ne]
        intro hid
        exact hnd.1 (hid ▸ List.mem_map_of_mem Activity.id hmem2)
      rw [List.find?_cons_of_neg _ (by simp [hb])]
      exact ih hmem2 hnd.2

/-! ### Preservation of the store invariant -/

theorem storeInv_add (o : WeeklyOrganizer) (newId : String) (now : Nat)
    (title category day start_time : String) (duration : ℚ)
    (location description : Option String) (o' : WeeklyOrganizer) (rid : String)
    (hi : StoreInv o) (fresh : ∀ a ∈ o.activities, a.id ≠ newId)
    (h : add_activity o newId now title category day start_time duration location description
      = some (o', Except.ok rid)) : StoreInv o' := by
  obtain ⟨hwf, hno, hnd⟩ := hi
  obtain ⟨hrid, hvd, hvts, hck, hcf, hacts, hcats⟩ :=
    add_activity_ok _ _ _ _ _ _ _ _ _ _ _ _ h
  rcases hp : parseHM start_time with _ | p
  · rw [hp] at hvts; simp at hvts
  rw [check_time_conflict, hp] at hcf
  dsimp only at hcf
  have hscan := conflictScan_some_none _ _ _ _ hcf
  refine ⟨?_, ?_, ?_⟩
  · intro x hx
    rw [hacts] at hx
    rcases List.mem_append.mp hx with hx1 | hx2
    · exact hwf x hx1
    · simp only [List.mem_singleton] at hx2
      subst hx2
      simp [hp]
  · rw [NoOverlap, hacts, List.pairwise_append]
    refine ⟨hno, by simp, ?_⟩
    intro x hx b hb
    simp only [List.mem_singleton] at hb
    subst hb
    rw [overlaps_symm]
    apply overlaps_false_of_noconflict _ x p hp
    intro hdx px hpx hcx
    have hxday : x.day = day := hdx
    obtain ⟨px', hpx', hnc⟩ := hscan x hx hxday
    rw [hpx] at hpx'
    injection hpx' with hpe
    subst hpe
    exact hnc ⟨hcx.1, hcx.2⟩
  · rw [hacts, List.map_append, List.map_cons, List.map_nil, List.nodup_append]
    refine ⟨hnd, List.nodup_singleton _, ?_⟩
    intro x hx
    obtain ⟨b, hb, rfl⟩ := List.mem_map.mp hx
    simp only [List.mem_singleton]
    exact fun hc => fresh b hb hc

theorem storeInv_edit (o : WeeklyOrganizer) (id : String)
    (t c d st : Option String) (dur : Option ℚ) (loc desc : Option String)
    (o' : WeeklyOrganizer) (hi : StoreInv o)
    (h : edit_activity o id t c d st dur loc desc = some (o', Except.ok ())) : StoreInv o' := by
  obtain ⟨hwf, hno, hnd⟩ := hi
  obtain ⟨a, hfind, hvd, hvts, hck, hcf, hacts, hcats⟩ :=
    edit_activity_ok _ _ _ _ _ _ _ _ _ _ h
  obtain ⟨haid, l1, l2, hsplit, hl1, hl2, hfilter, hupd⟩ := find?_id_decomp _ _ _ hfind hnd
  rcases hp : parseHM (mergeFields a t c d st dur).start_time with _ | p
  · rw [hp] at hvts; simp at hvts
  rw [check_time_conflict, hp] at hcf
  dsimp only at hcf
  rw [hfilter] at hcf
  have hscan := conflictScan_some_none _ _ _ _ hcf
  have hacts2 : o'.activities =
      l1 ++ applyChanges a t c d st dur loc desc :: l2 := by
    rw [hacts, hupd]
  have hp2 : parseHM (applyChanges a t c d st dur loc desc).start_time = some p := hp
  have hover : ∀ y ∈ l1 ++ l2, overlaps (applyChanges a t c d st dur loc desc) y = false := by
    intro y hy
    apply overlaps_false_of_noconflict _ y p hp2
    intro hdy py hpy hcy
    have hyday : y.day = (mergeFields a t c d st dur).day := hdy
    obtain ⟨py', hpy', hnc⟩ := hscan y hy hyday
    rw [hpy] at hpy'
    injection hpy' with hpe
    subst hpe
    exact hnc ⟨hcy.1, hcy.2⟩
  have horig := hno
  rw [NoOverlap, hsplit, List.pairwise_append, List.pairwise_cons] at horig
  obtain ⟨P1, ⟨Hal2, P2⟩, Hx⟩ := horig
  refine ⟨?_, ?_, ?_⟩
  · intro x hx
    rw [hacts2] at hx
    rcases List.mem_append.mp hx with hx1 | hx2
    · exact hwf x (by rw [hsplit]; exact List.mem_append_left _ hx1)
    · rcases List.mem_cons.mp hx2 with rfl | hx3
      · rw [hp2]; rfl
      · exact hwf x (by rw [hsplit]; exact List.mem_append_right _ (List.mem_cons_of_mem a hx3))
  · rw [NoOverlap, hacts2, List.pairwise_append, List.pairwise_cons]
    refine ⟨P1, ⟨?_, P2⟩, ?_⟩
    · intro y hy
      exact hover y (List.mem_append_right _ hy)
    · intro x hx b hb
      rcases List.mem_cons.mp hb with rfl | hb2
      · rw [overlaps_symm]
        exact hover x (List.mem_append_left _ hx)
      · exact Hx x hx b (List.mem_cons_of_mem a hb2)
  · rw [hacts2, List.map_append, List.map_cons]
    have hid2 : (applyChanges a t c d st dur loc desc).id = a.id := rfl
    rw [hid2]
    have := hnd
    rw [hsplit, List.map_append, List.map_cons] at this
    exact this

theorem storeInv_remove (o : WeeklyOrganizer) (id : String) (o' : WeeklyOrganizer)
    (r : Except SchedError Unit) (hi : StoreInv o)
    (h : remove_activity o id = (o', r)) : StoreInv o' := by
  obtain ⟨hwf, hno, hnd⟩ := hi
  obtain ⟨ha, hc, _, _⟩ := remove_activity_shape o id o' r h
  have hsub : o'.activities.Sublist o.activities := by
    rw [ha]; exact List.filter_sublist _
  refine ⟨fun x hx => hwf x (hsub.mem hx), hno.sublist hsub, hnd.sublist (hsub.map _)⟩

theorem storeInv_reachable (o : WeeklyOrganizer) (h : Reachable o) : StoreInv o := by
  induction h with
  | init =>
    refine ⟨?_, ?_, ?_⟩ <;> simp [WeeklyOrganizer.new, WFtimes, NoOverlap]
  | step hr hstep ih =>
    cases hstep with
    | add newId now title category day st dur loc desc o2 rid fresh hs =>
      exact storeInv_add _ _ _ _ _ _ _ _ _ _ _ _ ih fresh hs
    | edit id t c d st dur loc desc o2 hs =>
      exact storeInv_edit _ _ _ _ _ _ _ _ _ _ ih hs
    | remove id o2 hs =>
      exact storeInv_remove _ _ _ _ ih hs

/-! ### Statistics lemmas -/

theorem sumValues_upsertAdd (k : String) (v : ℚ) (m : List (String × ℚ)) :
    sumValues (upsertAdd k v m) = sumValues m + v := by
  induction m with
  | nil => simp [upsertAdd, sumValues]
  | cons p rest ih =>
    obtain ⟨k1, v1⟩ := p
    by_cases hk : k1 = k
    · simp only [upsertAdd, if_pos hk, sumValues, List.map_cons, List.sum_cons]
      ring
    · simp only [upsertAdd, if_neg hk, sumValues, List.map_cons, List.sum_cons] at ih ⊢
      rw [ih]
      ring

theorem stats_fold (acts : List Activity) (s : WeeklyStats) :
    (acts.foldl (fun stats a =>
      { total_time := stats.total_time + a.duration,
        by_category := upsertAdd a.category a.duration stats.by_category,
        by_day := upsertAdd a.day a.duration stats.by_day,
        activity_count := stats.activity_count }) s).total_time
        = s.total_time + (acts.map Activity.duration).sum ∧
    sumValues ((acts.foldl (fun stats a =>
      { total_time := stats.total_time + a.duration,
        by_category := upsertAdd a.category a.duration stats.by_category,
        by_day := upsertAdd a.day a.duration stats.by_day,
        activity_count := stats.activity_count }) s).by_category)
        = sumValues s.by_category + (acts.map Activity.duration).sum ∧
    sumValues ((acts.foldl (fun stats a =>
      { total_time := stats.total_time + a.duration,
        by_category := upsertAdd a.category a.duration stats.by_category,
        by_day := upsertAdd a.day a.duration stats.by_day,
        activity_count := stats.activity_count }) s).by_day)
        = sumValues s.by_day + (acts.map Activity.duration).sum ∧
    (acts.foldl (fun stats a =>
      { total_time := stats.total_time + a.duration,
        by_category := upsertAdd a.category a.duration stats.by_category,
        by_day := upsertAdd a.day a.duration stats.by_day,
        activity_count := stats.activity_count }) s).activity_count
        = s.activity_count := by
  induction acts generalizing s with
  | nil => simp
  | cons a rest ih =>
    simp only [List.foldl_cons, List.map_cons, List.sum_cons]
    obtain ⟨h1, h2, h3, h4⟩ := ih
      { total_time := s.total_time + a.duration,
        by_category := upsertAdd a.category a.duration s.by_category,
        by_day := upsertAdd a.day a.duration s.by_day,
        activity_count := s.activity_count }
    refine ⟨?_, ?_, ?_, ?_⟩
    · rw [h1]; dsimp only; ring
    · rw [h2]; dsimp only; rw [sumValues_upsertAdd]; ring
    · rw [h3]; dsimp only; rw [sumValues_upsertAdd]; ring
    · rw [h4]

/-! ### Parse characterization -/

theorem parseHM_bounds (s : String) (hh mm : Nat) (hp : parseHM s = some (hh, mm)) :
    hh ≤ 23 ∧ mm ≤ 59 := by
  unfold parseHM at hp
  dsimp only at hp
  repeat' split at hp
  all_goals try cases hp
  all_goals rename_i hcond
  all_goals obtain ⟨-, h1, h2⟩ := hcond
  all_goals omega

theorem truncQ_eq_floor (q : ℚ) (h : 0 ≤ q) : truncQ q = ⌊q⌋ := by
  rw [truncQ, if_pos h]


theorem check_time_conflict_isSome (acts : List Activity) (day st : String) (dur : ℚ)
    (hwf : ∀ a ∈ acts, a.day = day → (parseHM a.start_time).isSome)
    (hst : (parseHM st).isSome) : (check_time_conflict acts day st dur).isSome := by
  rcases hp : parseHM st with _ | p
  · rw [hp] at hst; cases hst
  · rw [check_time_conflict, hp]
    exact conflictScan_isSome _ _ _ _ hwf

/-! ### Claim theorems -/

/-- Claim C5 counterexample: `validate_time` accepts the single-digit-hour
string "9:30" (chrono `%H` takes one or two digits), contradicting the
claim that every input not strictly of the shape HH:MM is rejected. -/
theorem validate_time_accepts_single_digit_hour :
    validate_time "9:30" = Except.ok () ∧ parseHM "9:30" = some (9, 30) ∧
    validate_time " 9:30" = Except.ok () := by decide

set_option maxHeartbeats 1000000 in
/-- Claim C5 (amended): `validate_time` accepts exactly the strings the
chrono `%H:%M` parser accepts: a 1-2 digit hour and a 1-2 digit minute
separated by a literal colon, each number optionally preceded by
whitespace, nothing else in the input, hour at most 23 and minute at most
59.  In particular every canonical zero-padded HH:MM in range is
accepted, every parsed result is in range, and out-of-range or
wrongly-shaped inputs are rejected. -/
theorem validate_time_chrono_shape :
    (∀ s h m, parseHM s = some (h, m) → h ≤ 23 ∧ m ≤ 59)
    ∧ (∀ h < 24, ∀ m < 60, validate_time (fmtHM h m) = Except.ok ())
    ∧ (∀ h < 10, ∀ m < 60,
        parseHM (String.mk [Nat.digitChar h, ':', Nat.digitChar (m / 10),
          Nat.digitChar (m % 10)]) = some (h, m))
    ∧ validate_time "24:00" = Except.error (SchedError.invalidTime "24:00")
    ∧ validate_time "09:60" = Except.error (SchedError.invalidTime "09:60")
    ∧ validate_time "09:30x" = Except.error (SchedError.invalidTime "09:30x")
    ∧ validate_time "0930" = Except.error (SchedError.invalidTime "0930") :=
  ⟨parseHM_bounds, by decide, by decide, by decide, by decide, by decide, by decide⟩

/-- Witness for the amended C5 theorem at concrete inputs. -/
theorem validate_time_chrono_shape_witness :
    validate_time (fmtHM 23 59) = Except.ok () ∧ (9 : Nat) ≤ 23 ∧ (30 : Nat) ≤ 59 :=
  ⟨validate_time_chrono_shape.2.1 23 (by decide) 59 (by decide),
   (validate_time_chrono_shape.1 "09:30" 9 30 (by decide)).1,
   (validate_time_chrono_shape.1 "09:30" 9 30 (by decide)).2⟩

/-- Claim C8: for every store, the per-category durations and per-day
durations each sum exactly to the total time, the activity count is the
store length, and the stats of an empty store are all zero with empty
maps. -/
theorem weekly_stats_sums (o : WeeklyOrganizer) :
    sumValues (calculate_weekly_stats o).by_category = (calculate_weekly_stats o).total_time ∧
    sumValues (calculate_weekly_stats o).by_day = (calculate_weekly_stats o).total_time ∧
    (calculate_weekly_stats o).activity_count = o.activities.length ∧
    calculate_weekly_stats { activities := [], categories := o.categories } =
      { total_time := 0, by_category := [], by_day := [], activity_count := 0 } := by
  obtain ⟨h1, h2, h3, h4⟩ := stats_fold o.activities
    { total_time := 0, by_category := [], by_day := [],
      activity_count := o.activities.length }
  refine ⟨?_, ?_, ?_, rfl⟩
  · simp only [calculate_weekly_stats]
    rw [h2, h1]
    simp [sumValues]
  · simp only [calculate_weekly_stats]
    rw [h3, h1]
    simp [sumValues]
  · simp only [calculate_weekly_stats]
    rw [h4]

unseal Rat.add Rat.mul Rat.inv in
/-- Claim C10: under the precondition that every stored start time parses,
the unwrap inside `check_time_conflict` cannot abort (the scan result is
always `some`), and `add_activity` and `edit_activity` never abort; and
`load_data` installs the decoded activities verbatim with no
re-validation, so a loaded file can leave an unparseable start time in
the store, after which the abort branch is reachable. -/
theorem unwrap_precondition_safety :
    (∀ acts day st dur, (∀ a ∈ acts, a.day = day → (parseHM a.start_time).isSome) →
        (parseHM st).isSome → (check_time_conflict acts day st dur).isSome)
    ∧ (∀ o : WeeklyOrganizer, WFtimes o.activities →
        ∀ newId now title category day st dur loc desc,
        (add_activity o newId now title category day st dur loc desc).isSome)
    ∧ (∀ o : WeeklyOrganizer, WFtimes o.activities → ∀ id t c d st dur loc desc,
        (edit_activity o id t c d st dur loc desc).isSome)
    ∧ (∀ o acts cats, (load_data o acts cats).activities = acts)
    ∧ (load_data WeeklyOrganizer.new [actBad] []).activities = [actBad]
    ∧ check_time_conflict [actBad] "Segunda" "09:00" 1 = none := by
  refine ⟨check_time_conflict_isSome, ?_, ?_, fun o acts cats => rfl, rfl, by decide⟩
  · intro o hwf newId now title category day st dur loc desc
    unfold add_activity
    rcases hvd : validate_day day with e | u
    · try rw [hvd]
      simp
    cases u
    try rw [hvd]
    dsimp only
    rcases hvt : validate_time st with e | u
    · try rw [hvt]
      simp
    cases u
    try rw [hvt]
    dsimp only
    have hst : (parseHM st).isSome := by
      by_contra hns
      rw [validate_time, if_neg hns] at hvt
      cases hvt
    by_cases hck : containsKey o.categories category = true
    · rw [if_neg (not_not_intro hck)]
      by_cases hdur : dur ≤ 0 ∨ 8 < dur
      · rw [if_pos hdur]; simp
      · rw [if_neg hdur]
        by_cases hti : trimIsEmpty title = true
        · rw [if_pos hti]; simp
        · rw [if_neg hti]
          rcases hcf : check_time_conflict o.activities day st dur with _ | oc
          · have := check_time_conflict_isSome o.activities day st dur
              (fun a ha _ => hwf a ha) hst
            rw [hcf] at this; cases this
          · try rw [hcf]
            rcases oc with _ | cfl <;> simp
    · rw [if_pos hck]; simp
  · intro o hwf id t c d st dur loc desc
    unfold edit_activity
    rcases hfind : o.activities.find? (fun x => x.id == id) with _ | a
    · try rw [hfind]
      simp
    try rw [hfind]
    dsimp only
    rcases hvd : validate_day (mergeFields a t c d st dur).day with e | u
    · try rw [hvd]
      simp
    cases u
    try rw [hvd]
    dsimp only
    rcases hvt : validate_time (mergeFields a t c d st dur).start_time with e | u
    · try rw [hvt]
      simp
    cases u
    try rw [hvt]
    dsimp only
    have hst : (parseHM (mergeFields a t c d st dur).start_time).isSome := by
      by_contra hns
      rw [validate_time, if_neg hns] at hvt
      cases hvt
    by_cases hck : containsKey o.categories (mergeFields a t c d st dur).category = true
    · rw [if_neg (not_not_intro hck)]
      rcases hcf : check_time_conflict (o.activities.filter (fun x => ¬ x.id == a.id))
          (mergeFields a t c d st dur).day (mergeFields a t c d st dur).start_time
          (mergeFields a t c d st dur).duration with _ | oc
      · have := check_time_conflict_isSome
          (o.activities.filter (fun x => ¬ x.id == a.id))
          (mergeFields a t c d st dur).day (mergeFields a t c d st dur).start_time
          (mergeFields a t c d st dur).duration
          (fun x hx _ => hwf x (List.mem_of_mem_filter hx)) hst
        rw [hcf] at this; cases this
      · try rw [hcf]
        rcases oc with _ | cfl <;> simp
    · rw [if_pos hck]; simp

/-- Witness for the C10 theorem: the scan on an empty store with a parsed
candidate time never aborts. -/
theorem unwrap_precondition_safety_witness :
    (check_time_conflict [] "Segunda" "09:00" 1).isSome :=
  unwrap_precondition_safety.1 [] "Segunda" "09:00" 1 (by simp) (by decide)

/-- Claim C6: for an id not in the store, `edit_activity` and
`remove_activity` both fail with the not-found error and return the store
unchanged; and whenever either returns any error, the store it leaves
behind is exactly the store it was given (all-or-nothing). -/
theorem notfound_and_error_atomicity (o : WeeklyOrganizer) (id : String)
    (t c d st : Option String) (dur : Option ℚ) (loc desc : Option String) :
    ((∀ a ∈ o.activities, a.id ≠ id) →
      edit_activity o id t c d st dur loc desc = some (o, Except.error SchedError.notFound)
      ∧ remove_activity o id = (o, Except.error SchedError.notFound))
    ∧ (∀ o' e, edit_activity o id t c d st dur loc desc = some (o', Except.error e) → o' = o)
    ∧ (∀ o' e, remove_activity o id = (o', Except.error e) → o' = o) := by
  refine ⟨?_, fun o' e h => edit_activity_error_state _ _ _ _ _ _ _ _ _ _ _ h,
    fun o' e h => remove_activity_error_state _ _ _ _ h⟩
  intro hnone
  have hfind : o.activities.find? (fun x => x.id == id) = none := by
    rw [List.find?_eq_none]
    intro x hx
    simp [hnone x hx]
  have hfe : o.activities.filter (fun a => ¬ a.id == id) = o.activities :=
    List.filter_eq_self.mpr (fun a ha => by simp [hnone a ha])
  constructor
  · unfold edit_activity
    rw [hfind]
  · unfold remove_activity
    dsimp only
    rw [hfe, if_pos rfl]

/-- Witness for the C6 theorem: editing and removing an id absent from a
concrete one-activity store both report not-found and leave it intact. -/
theorem notfound_and_error_atomicity_witness :
    edit_activity orgC "z" none none none none none none none
      = some (orgC, Except.error SchedError.notFound)
    ∧ remove_activity orgC "z" = (orgC, Except.error SchedError.notFound) :=
  (notfound_and_error_atomicity orgC "z" none none none none none none none).1 (by decide)

unseal Rat.add Rat.mul Rat.inv in
/-- Claim C2 counterexample: from the empty store, adding a 5/8-hour
activity at 09:00 and then a half-hour activity at 09:37 on the same day
both succeed, yet the two stored activities overlap under the
specification interval ends (start + half-up-rounded duration minutes:
the first runs to 09:38 by the spec but to 09:37 by the code). -/
theorem reachable_overlap_under_spec_rounding :
    add_activity WeeklyOrganizer.new "a" 0 "A" "trabalho" "Segunda" "09:00" (5/8) none none
      = some (orgA, Except.ok "a")
    ∧ add_activity orgA "b" 0 "B" "trabalho" "Segunda" "09:37" (1/2) none none
      = some (orgAB, Except.ok "b")
    ∧ orgAB.activities = [actA, actB]
    ∧ specOverlaps actA actB = true
    ∧ overlaps actA actB = false := by decide

/-- Claim C2 (amended): with occupied intervals computed exactly as the
code computes them (end = start + duration times 60 truncated toward
zero), every state reachable from the empty store through successful
mutations with fresh add ids has pairwise non-overlapping same-day
activities, and any mutation returning an error leaves the store exactly
as it was. -/
theorem no_overlap_invariant :
    (∀ o, Reachable o → List.Pairwise (fun a b => overlaps a b = false) o.activities)
    ∧ (∀ o newId now title category day st dur loc desc o' e,
        add_activity o newId now title category day st dur loc desc
          = some (o', Except.error e) → o' = o)
    ∧ (∀ o id t c d st dur loc desc o' e,
        edit_activity o id t c d st dur loc desc = some (o', Except.error e) → o' = o)
    ∧ (∀ o id o' e, remove_activity o id = (o', Except.error e) → o' = o) :=
  ⟨fun o h => (storeInv_reachable o h).2.1,
   fun o newId now title category day st dur loc desc o' e h =>
     add_activity_error_state o newId now title category day st dur loc desc o' e h,
   fun o id t c d st dur loc desc o' e h =>
     edit_activity_error_state o id t c d st dur loc desc o' e h,
   fun o id o' e h => remove_activity_error_state o id o' e h⟩

unseal Rat.add Rat.mul Rat.inv in
/-- Witness for the amended C2 theorem on a concrete two-step reachable
state. -/
theorem no_overlap_invariant_witness :
    List.Pairwise (fun a b => overlaps a b = false) orgAB.activities :=
  no_overlap_invariant.1 orgAB
    (Reachable.step
      (Reachable.step Reachable.init
        (Step.add WeeklyOrganizer.new "a" 0 "A" "trabalho" "Segunda" "09:00" (5/8)
          none none orgA "a" (by simp [WeeklyOrganizer.new]) (by decide)))
      (Step.add orgA "b" 0 "B" "trabalho" "Segunda" "09:37" (1/2)
        none none orgAB "b" (by decide) (by decide)))

unseal Rat.add Rat.mul Rat.inv in
/-- Claim C1: the conflict check reports a conflict exactly when some
stored same-day activity satisfies the strict half-open overlap test
`startA < endB and startB < endA` against the candidate (interval ends as
the code computes them), so intervals that only touch at an endpoint
never conflict; concretely, after an activity occupying 09:00-10:00,
adding one starting exactly at 10:00 on the same day succeeds. -/
theorem conflict_iff_strict_overlap (acts : List Activity) (day st : String) (dur : ℚ)
    (p : Nat × Nat) (hst : parseHM st = some p)
    (hwf : ∀ a ∈ acts, a.day = day → (parseHM a.start_time).isSome) :
    ((∃ c, check_time_conflict acts day st dur = some (some c)) ↔
      ∃ a ∈ acts, a.day = day ∧ ∃ q, parseHM a.start_time = some q ∧
        minutesOf p < minutesOf q + truncQ (a.duration * 60) ∧
        minutesOf q < minutesOf p + truncQ (dur * 60))
    ∧ add_activity orgC "b" 0 "B" "trabalho" "Segunda" "10:00" 1 none none
        = some (orgCB, Except.ok "b") := by
  refine ⟨⟨?_, ?_⟩, by decide⟩
  · rintro ⟨c, hc⟩
    by_contra hR
    push_neg at hR
    rw [check_time_conflict, hst] at hc
    refine conflictScan_no_hit day (minutesOf p) (minutesOf p + truncQ (dur * 60)) acts
      ?_ c hc
    intro a ha hd q hq hcon
    exact absurd hcon.2 (not_lt.mpr (hR a ha hd q hq hcon.1))
  · rintro ⟨a, ha, hd, q, hq, h1, h2⟩
    rcases hs : check_time_conflict acts day st dur with _ | oc
    · have := check_time_conflict_isSome acts day st dur hwf (by rw [hst]; rfl)
      rw [hs] at this; cases this
    · rcases oc with _ | c
      · exfalso
        rw [check_time_conflict, hst] at hs
        obtain ⟨q', hq', hnc⟩ := conflictScan_some_none _ _ _ _ hs a ha hd
        rw [hq] at hq'
        injection hq' with he
        subst he
        exact hnc ⟨h1, h2⟩
      · exact ⟨c, rfl⟩

/-- Witness for the C1 theorem on the empty store. -/
theorem conflict_iff_strict_overlap_witness :
    ((∃ c, check_time_conflict [] "Segunda" "09:00" 1 = some (some c)) ↔
      ∃ a ∈ ([] : List Activity), a.day = "Segunda" ∧
        ∃ q, parseHM a.start_time = some q ∧
          minutesOf (9, 0) < minutesOf q + truncQ (a.duration * 60) ∧
          minutesOf q < minutesOf (9, 0) + truncQ ((1 : ℚ) * 60))
    ∧ add_activity orgC "b" 0 "B" "trabalho" "Segunda" "10:00" 1 none none
        = some (orgCB, Except.ok "b") :=
  conflict_iff_strict_overlap [] "Segunda" "09:00" 1 (9, 0) (by decide) (by simp)

unseal Rat.add Rat.mul Rat.inv in
/-- Claim C3 counterexample: at duration 5/8 hour (37.5 minutes) the code
computes end minute 37 past the start (truncation toward zero of
`duration * 60.0` cast to `i32`), not the half-up-rounded 38 the claim
requires; accordingly the conflict check accepts a 09:37 candidate
against a 09:00 + 5/8 h stored activity although the rounded interval
[540, 578) would still cover minute 577. -/
theorem end_minute_truncated_not_rounded :
    truncQ ((5/8 : ℚ) * 60) = 37 ∧ specRoundHalfUp ((5/8 : ℚ) * 60) = 38 ∧
    check_time_conflict [actA] "Segunda" "09:37" (1/2) = some none ∧
    minutesOf (9, 37) < specEndMinutes (minutesOf (9, 0)) (5/8) := by decide

/-- Claim C3 (amended): for every duration in (0, 8], the occupied
interval end used by the conflict check equals the start minute plus the
floor (= truncation toward zero, since the product is nonnegative) of
durationHours times 60, and the check reports no conflict exactly when
every stored same-day activity lies entirely before or entirely after
the candidate interval computed this way. -/
theorem conflict_uses_floor_minutes (dur : ℚ) (hpos : 0 < dur) (hle : dur ≤ 8)
    (day st : String) (p : Nat × Nat) (acts : List Activity)
    (hst : parseHM st = some p)
    (hwf : ∀ a ∈ acts, a.day = day → (parseHM a.start_time).isSome) :
    truncQ (dur * 60) = ⌊dur * 60⌋ ∧
    (check_time_conflict acts day st dur = some none ↔
      ∀ a ∈ acts, a.day = day → ∀ q, parseHM a.start_time = some q →
        minutesOf q + truncQ (a.duration * 60) ≤ minutesOf p ∨
        minutesOf p + ⌊dur * 60⌋ ≤ minutesOf q) := by
  have hfl : truncQ (dur * 60) = ⌊dur * 60⌋ :=
    truncQ_eq_floor _ (by positivity)
  refine ⟨hfl, ?_, ?_⟩
  · intro hs a ha hd q hq
    rw [check_time_conflict, hst] at hs
    obtain ⟨q', hq', hnc⟩ := conflictScan_some_none _ _ _ _ hs a ha hd
    rw [hq] at hq'
    injection hq' with he
    subst he
    rw [← hfl]
    rcases not_and_or.mp hnc with h | h
    · left; exact not_lt.mp h
    · right; exact not_lt.mp h
  · intro hall
    rw [check_time_conflict, hst]
    apply conflictScan_eq_some_none _ _ _ _ hwf
    intro a ha hd q hq hcon
    rcases hall a ha hd q hq with h | h
    · exact absurd hcon.1 (not_lt.mpr h)
    · rw [← hfl] at h
      exact absurd hcon.2 (not_lt.mpr h)

/-- Witness for the amended C3 theorem at duration one hour on the empty
store. -/
theorem conflict_uses_floor_minutes_witness :
    truncQ ((1 : ℚ) * 60) = ⌊(1 : ℚ) * 60⌋ ∧
    (check_time_conflict [] "Segunda" "09:00" 1 = some none ↔
      ∀ a ∈ ([] : List Activity), a.day = "Segunda" → ∀ q, parseHM a.start_time = some q →
        minutesOf q + truncQ (a.duration * 60) ≤ minutesOf (9, 0) ∨
        minutesOf (9, 0) + ⌊(1 : ℚ) * 60⌋ ≤ minutesOf q) :=
  conflict_uses_floor_minutes 1 (by norm_num) (by norm_num) "Segunda" "09:00" (9, 0) []
    (by decide) (by simp)

theorem validate_day_error (d : String) (e : SchedError)
    (h : validate_day d = Except.error e) : e = SchedError.invalidDay d := by
  rw [validate_day] at h
  split at h
  · cases h
  · injection h with h2
    exact h2.symm

theorem validate_time_error (s : String) (e : SchedError)
    (h : validate_time s = Except.error e) : e = SchedError.invalidTime s := by
  rw [validate_time] at h
  split at h
  · cases h
  · injection h with h2
    exact h2.symm

unseal Rat.add Rat.mul Rat.inv in
/-- Claim C4 counterexample: `add_activity` rejects duration 9 as out of
range, but `edit_activity` applied to a stored activity accepts a merged
duration of 9 and also accepts an empty merged title, so the merged
record is not validated as add validates it. -/
theorem edit_skips_duration_and_title_checks :
    add_activity WeeklyOrganizer.new "x" 0 "T" "trabalho" "Segunda" "09:00" 9 none none
      = some (WeeklyOrganizer.new, Except.error SchedError.invalidDuration)
    ∧ edit_activity orgC "c" none none none none (some 9) none none
      = some (orgC9, Except.ok ())
    ∧ edit_activity orgC "c" (some "") none none none none none none
      = some (orgCE, Except.ok ()) := by decide

/-- Claim C4 (amended): for an existing id, `edit_activity` validates the
merged day, merged start time and merged category with exactly the
validators `add_activity` uses and in the same order, but it never checks
the merged duration or the merged title: no edit result is the
out-of-range-duration or empty-title error. -/
theorem edit_validation_scope (o : WeeklyOrganizer) (id : String)
    (t c d st : Option String) (dur : Option ℚ) (loc desc : Option String)
    (a : Activity) (hfind : o.activities.find? (fun x => x.id == id) = some a) :
    (∀ e1, validate_day (mergeFields a t c d st dur).day = Except.error e1 →
      edit_activity o id t c d st dur loc desc = some (o, Except.error e1))
    ∧ (validate_day (mergeFields a t c d st dur).day = Except.ok () →
       ∀ e1, validate_time (mergeFields a t c d st dur).start_time = Except.error e1 →
       edit_activity o id t c d st dur loc desc = some (o, Except.error e1))
    ∧ (validate_day (mergeFields a t c d st dur).day = Except.ok () →
       validate_time (mergeFields a t c d st dur).start_time = Except.ok () →
       containsKey o.categories (mergeFields a t c d st dur).category = false →
       edit_activity o id t c d st dur loc desc = some (o, Except.error
         (SchedError.unknownCategory (mergeFields a t c d st dur).category)))
    ∧ (∀ o' e, edit_activity o id t c d st dur loc desc = some (o', Except.error e) →
        e ≠ SchedError.invalidDuration ∧ e ≠ SchedError.emptyTitle) := by
  refine ⟨?_, ?_, ?_, ?_⟩
  · intro e1 hvd1
    unfold edit_activity
    rw [hfind]
    dsimp only
    rw [hvd1]
  · intro hvd1 e1 hvt1
    unfold edit_activity
    rw [hfind]
    dsimp only
    rw [hvd1]
    dsimp only
    rw [hvt1]
  · intro hvd1 hvt1 hck1
    unfold edit_activity
    rw [hfind]
    dsimp only
    rw [hvd1]
    dsimp only
    rw [hvt1]
    dsimp only
    rw [if_pos (by simp [hck1])]
  · intro o' e h
    unfold edit_activity at h
    rw [hfind] at h
    dsimp only at h
    rcases hvd1 : validate_day (mergeFields a t c d st dur).day with e1 | u
    · rw [hvd1] at h
      dsimp only at h
      simp only [Option.some.injEq, Prod.mk.injEq, Except.error.injEq] at h
      rw [← h.2, validate_day_error _ _ hvd1]
      simp
    cases u
    rw [hvd1] at h
    dsimp only at h
    rcases hvt1 : validate_time (mergeFields a t c d st dur).start_time with e1 | u
    · rw [hvt1] at h
      dsimp only at h
      simp only [Option.some.injEq, Prod.mk.injEq, Except.error.injEq] at h
      rw [← h.2, validate_time_error _ _ hvt1]
      simp
    cases u
    rw [hvt1] at h
    dsimp only at h
    by_cases hck1 : containsKey o.categories (mergeFields a t c d st dur).category = true
    · rw [if_neg (not_not_intro hck1)] at h
      rcases hcf : check_time_conflict (o.activities.filter (fun x => ¬ x.id == a.id))
          (mergeFields a t c d st dur).day (mergeFields a t c d st dur).start_time
          (mergeFields a t c d st dur).duration with _ | oc
      · rw [hcf] at h; cases h
      · rcases oc with _ | cfl
        · rw [hcf] at h
          dsimp only at h
          simp at h
        · rw [hcf] at h
          dsimp only at h
          simp only [Option.some.injEq, Prod.mk.injEq, Except.error.injEq] at h
          rw [← h.2]
          simp
    · rw [if_pos hck1] at h
      simp only [Option.some.injEq, Prod.mk.injEq, Except.error.injEq] at h
      rw [← h.2]
      simp

unseal Rat.add Rat.mul Rat.inv in
/-- Witness for the amended C4 theorem: an edit of a concrete store that
merges an unregistered category fails with the unknown-category error,
exactly as the add validator reports it. -/
theorem edit_validation_scope_witness :
    edit_activity orgC "c" none (some "zzz") none none none none none
      = some (orgC, Except.error (SchedError.unknownCategory
          (mergeFields actC none (some "zzz") none none none).category)) :=
  (edit_validation_scope orgC "c" none (some "zzz") none none none none none actC
    (by decide)).2.2.1 (by decide) (by decide) (by decide)

/-- Claim C9: a successful edit changes exactly the first stored activity
with the given id; each of its fields takes the supplied value when one
was supplied and keeps its previous value otherwise (location and
description are overwritten only when supplied), its id and creation
timestamp are untouched, and every other activity and the category map
are unchanged, in place. -/
theorem edit_frame (o o' : WeeklyOrganizer) (id : String)
    (t c d st : Option String) (dur : Option ℚ) (loc desc : Option String)
    (h : edit_activity o id t c d st dur loc desc = some (o', Except.ok ())) :
    o'.categories = o.categories ∧
    ∃ l1 a a2 l2, o.activities = l1 ++ a :: l2 ∧ o'.activities = l1 ++ a2 :: l2 ∧
      a.id = id ∧ (∀ x ∈ l1, (x.id == id) = false) ∧
      a2.id = a.id ∧ a2.created_at = a.created_at ∧
      a2.title = t.getD a.title ∧ a2.category = c.getD a.category ∧
      a2.day = d.getD a.day ∧ a2.start_time = st.getD a.start_time ∧
      a2.duration = dur.getD a.duration ∧
      (loc = none → a2.location = a.location) ∧
      (∀ l, loc = some l → a2.location = some l) ∧
      (desc = none → a2.description = a.description) ∧
      (∀ sd, desc = some sd → a2.description = some sd) := by
  obtain ⟨a, hfind, hvd, hvts, hck, hcf, hacts, hcats⟩ :=
    edit_activity_ok _ _ _ _ _ _ _ _ _ _ h
  obtain ⟨l1, l2, hsplit, hl1, hpa⟩ := find?_decomp _ _ _ hfind
  refine ⟨hcats, l1, a, applyChanges a t c d st dur loc desc, l2, hsplit, ?_,
    by simpa using hpa, hl1, rfl, rfl, rfl, rfl, rfl, rfl, rfl,
    fun hl => by subst hl; rfl, fun l hl => by subst hl; rfl,
    fun hds => by subst hds; rfl, fun sd hds => by subst hds; rfl⟩
  rw [hacts, hsplit, updateFirst_decomp _ _ _ _ _ hl1 hpa]

unseal Rat.add Rat.mul Rat.inv in
/-- Witness for the C9 theorem: an edit of a concrete store that supplies
no fields succeeds and leaves the single stored activity intact. -/
theorem edit_frame_witness :
    orgC.categories = orgC.categories ∧
    ∃ l1 a a2 l2, orgC.activities = l1 ++ a :: l2 ∧ orgC.activities = l1 ++ a2 :: l2 ∧
      a.id = "c" ∧ (∀ x ∈ l1, (x.id == "c") = false) ∧
      a2.id = a.id ∧ a2.created_at = a.created_at ∧
      a2.title = Option.getD none a.title ∧ a2.category = Option.getD none a.category ∧
      a2.day = Option.getD none a.day ∧ a2.start_time = Option.getD none a.start_time ∧
      a2.duration = Option.getD none a.duration ∧
      ((none : Option String) = none → a2.location = a.location) ∧
      (∀ l, (none : Option String) = some l → a2.location = some l) ∧
      ((none : Option String) = none → a2.description = a.description) ∧
      (∀ sd, (none : Option String) = some sd → a2.description = some sd) :=
  edit_frame orgC orgC "c" none none none none none none none (by decide)

/-- Claim C7: in any reachable state, an edit of a stored activity that
supplies no fields, or supplies each field with its current value, can
never fail with a time-conflict error: the conflict scan excludes the
activity itself, and by the store invariant nothing else on its day
overlaps it. -/
theorem edit_self_no_conflict (o : WeeklyOrganizer) (hreach : Reachable o)
    (a : Activity) (ha : a ∈ o.activities)
    (t c d st : Option String) (dur : Option ℚ) (loc desc : Option String)
    (ht : t = none ∨ t = some a.title) (hc : c = none ∨ c = some a.category)
    (hd : d = none ∨ d = some a.day) (hst : st = none ∨ st = some a.start_time)
    (hdur : dur = none ∨ dur = some a.duration) :
    ∀ o' s, edit_activity o a.id t c d st dur loc desc
      ≠ some (o', Except.error (SchedError.timeConflict s)) := by
  obtain ⟨hwf, hno, hnd⟩ := storeInv_reachable o hreach
  have hmd : (mergeFields a t c d st dur).day = a.day := by
    rcases hd with rfl | rfl <;> simp [mergeFields]
  have hmst : (mergeFields a t c d st dur).start_time = a.start_time := by
    rcases hst with rfl | rfl <;> simp [mergeFields]
  have hmdur : (mergeFields a t c d st dur).duration = a.duration := by
    rcases hdur with rfl | rfl <;> simp [mergeFields]
  intro o' s heq
  have hfind : o.activities.find? (fun x => x.id == a.id) = some a :=
    find?_of_mem_nodup _ _ ha hnd
  unfold edit_activity at heq
  rw [hfind] at heq
  dsimp only at heq
  rcases hvd : validate_day (mergeFields a t c d st dur).day with e | u
  · rw [hvd] at heq
    dsimp only at heq
    rw [validate_day_error _ _ hvd] at heq
    simp at heq
  cases u
  rw [hvd] at heq
  dsimp only at heq
  rcases hvt : validate_time (mergeFields a t c d st dur).start_time with e | u
  · rw [hvt] at heq
    dsimp only at heq
    rw [validate_time_error _ _ hvt] at heq
    simp at heq
  cases u
  rw [hvt] at heq
  dsimp only at heq
  by_cases hck : containsKey o.categories (mergeFields a t c d st dur).category = true
  · rw [if_neg (not_not_intro hck)] at heq
    rw [hmd, hmst, hmdur] at heq
    have hpsome : (parseHM a.start_time).isSome := hwf a ha
    rcases hp : parseHM a.start_time with _ | p
    · rw [hp] at hpsome; cases hpsome
    rw [check_time_conflict, hp] at heq
    dsimp only at heq
    obtain ⟨-, l1, l2, hsplit, hl1, hl2, hfilter, -⟩ := find?_id_decomp _ _ _ hfind hnd
    rw [hfilter] at heq
    have hnov : ∀ x ∈ l1 ++ l2, overlaps a x = false := by
      have horig := hno
      rw [NoOverlap, hsplit, List.pairwise_append, List.pairwise_cons] at horig
      obtain ⟨P1, ⟨Hal2, P2⟩, Hx⟩ := horig
      intro x hx
      rcases List.mem_append.mp hx with hx1 | hx2
      · rw [overlaps_symm]
        exact Hx x hx1 a (List.mem_cons_self a l2)
      · exact Hal2 x hx2
    have hscan := conflictScan_no_hit a.day (minutesOf p)
      (minutesOf p + truncQ (a.duration * 60)) (l1 ++ l2)
      (fun x hx hxd px hpx =>
        noconflict_of_overlaps_false a x p hp (hnov x hx) hxd px hpx)
    rcases hcf : conflictScan a.day (minutesOf p)
        (minutesOf p + truncQ (a.duration * 60)) (l1 ++ l2) with _ | oc
    · rw [hcf] at heq; cases heq
    · rcases oc with _ | cfl
      · rw [hcf] at heq
        dsimp only at heq
        simp at heq
      · exact hscan cfl hcf
  · rw [if_pos hck] at heq
    simp at heq

unseal Rat.add Rat.mul Rat.inv in
/-- Witness for the C7 theorem on a concrete reachable one-activity
store. -/
theorem edit_self_no_conflict_witness :
    edit_activity orgC actC.id none none none none none none none
      ≠ some (orgC, Except.error (SchedError.timeConflict "C")) :=
  edit_self_no_conflict orgC
    (Reachable.step Reachable.init
      (Step.add WeeklyOrganizer.new "c" 0 "C" "trabalho" "Segunda" "09:00" 1
        none none orgC "c" (by simp [WeeklyOrganizer.new]) (by decide)))
    actC (by simp [orgC])
    none none none none none none none
    (Or.inl rfl) (Or.inl rfl) (Or.inl rfl) (Or.inl rfl) (Or.inl rfl)
    orgC "C" 
